import Mathlib

/-!
# Verification of the MedEye detection post-processing pipeline

Shallow embedding of the detection pipeline found in the repository sources
(main-thread script and the background-worker script).  JavaScript numbers are
modelled by rationals.  JavaScript division, which yields NaN when the
denominator and numerator are both zero, is modelled by an Option-valued
division: the result is none exactly when the denominator is zero (for the IoU
computation the numerator is then provably zero as well, so none corresponds
exactly to NaN).  A comparison against NaN is false in JavaScript; the helper
iouExceeds mirrors that.
-/

set_option linter.unusedVariables false

-- The Batteries rational-number operations are sealed; reopen them so that
-- concrete runs of the embedded pipeline reduce inside the kernel.
unseal Rat.add Rat.mul Rat.inv Rat.sub

/-- A bounding box, source field order x, y, width, height (pixel space). -/
structure Box where
  x : ℚ
  y : ℚ
  width : ℚ
  height : ℚ
deriving DecidableEq, Repr, Inhabited

/-- A decoded detection.  The source field named class is called cls here
(class is a Lean keyword); all other names follow the source. -/
structure Detection where
  x : ℚ
  y : ℚ
  width : ℚ
  height : ℚ
  score : ℚ
  cls : Nat
deriving DecidableEq, Repr, Inhabited

/-- Model configuration, from MODEL_CONFIG in both scripts
(0.25 and 0.45 written as rationals). -/
structure ModelConfig where
  inputSize : Nat
  scoreThreshold : ℚ
  iouThreshold : ℚ
  maxDetections : Nat

def MODEL_CONFIG : ModelConfig :=
  { inputSize := 640
    scoreThreshold := 25/100
    iouThreshold := 45/100
    maxDetections := 100 }

/-- The intersection area computed inside calculateIoU:
max(0, x2 - x1) * max(0, y2 - y1) with the intermediate consts of the source. -/
def intersectionArea (box1 box2 : Box) : ℚ :=
  let x1 := max box1.x box2.x
  let y1 := max box1.y box2.y
  let x2 := min (box1.x + box1.width) (box2.x + box2.width)
  let y2 := min (box1.y + box1.height) (box2.y + box2.height)
  max 0 (x2 - x1) * max 0 (y2 - y1)

/-- Area of a box (width * height), as computed inline in calculateIoU. -/
def boxArea (b : Box) : ℚ := b.width * b.height

/-- calculateIoU from both scripts (the two copies are textually identical):
intersection / (area1 + area2 - intersection).  The JavaScript division is
unguarded; when the denominator is zero the numerator is zero too for boxes
with non-negative sides, so the JS result is NaN, modelled here as none. -/
def calculateIoU (box1 box2 : Box) : Option ℚ :=
  let intersection := intersectionArea box1 box2
  let union := boxArea box1 + boxArea box2 - intersection
  if union = 0 then none else some (intersection / union)

/-- The test iou > iouThreshold of the source.  In JavaScript any comparison
with NaN is false, hence none compares false. -/
def iouExceeds (iou : Option ℚ) (iouThreshold : ℚ) : Bool :=
  match iou with
  | none => false
  | some v => decide (iouThreshold < v)

/-- Stable insertion of a (score, index) pair into a descending list; a pair
is placed before the first strictly smaller or equal-scored pair, which
reproduces the stable JavaScript sort with comparator (a, b) => b.score - a.score. -/
def insertByScore (p : ℚ × Nat) : List (ℚ × Nat) → List (ℚ × Nat)
  | [] => [p]
  | q :: rest => if p.1 ≥ q.1 then p :: q :: rest else q :: insertByScore p rest

/-- Stable descending sort of (score, index) pairs. -/
def sortByScoreDesc : List (ℚ × Nat) → List (ℚ × Nat)
  | [] => []
  | p :: rest => insertByScore p (sortByScoreDesc rest)

/-- scores.map((score, idx) => ({score, idx})).sort((a, b) => b.score - a.score)
.map(item => item.idx) from both nonMaxSuppression implementations. -/
def sortIndices (scores : List ℚ) : List Nat :=
  (sortByScoreDesc (scores.enum.map (fun p => (p.2, p.1)))).map (fun p => p.2)

/-- The removal pass of the MAIN-THREAD nonMaxSuppression:
indices.forEach((idx, i) => { if (iou > thr) indices.splice(i, 1); }).
Splicing at the visited position shifts the array left, so the forEach index
skips the element that moves into the removed slot: after each removal the
immediately following candidate is kept unexamined. -/
def spliceRemove (current : Box) (boxes : List Box) (iouThreshold : ℚ) :
    List Nat → List Nat
  | [] => []
  | idx :: rest =>
    if iouExceeds (calculateIoU current (boxes.getD idx default)) iouThreshold then
      match rest with
      | [] => []
      | keep :: rest2 => keep :: spliceRemove current boxes iouThreshold rest2
    else
      idx :: spliceRemove current boxes iouThreshold rest

/-- The removal pass of the WORKER nonMaxSuppression:
for (let i = indices.length - 1; i >= 0; i--) { if (iou > thr) splice(i, 1) }.
Backwards iteration with in-place removal examines every element exactly once,
which is a plain filter. -/
def filterRemove (current : Box) (boxes : List Box) (iouThreshold : ℚ)
    (indices : List Nat) : List Nat :=
  indices.filter
    (fun idx => !iouExceeds (calculateIoU current (boxes.getD idx default)) iouThreshold)

/-- The while loop of the main-thread nonMaxSuppression.  The fuel argument is
a structural bound on the number of iterations; it is instantiated with the
length of the initial index list, which suffices because every iteration
consumes at least one index, so the loop always terminates by emptiness or by
reaching maxDetections before fuel runs out. -/
def nmsLoopMain (boxes : List Box) (iouThreshold : ℚ) (maxDetections : Nat) :
    Nat → List Nat → List Nat → List Nat
  | _, selected, [] => selected
  | 0, selected, _ => selected
  | fuel + 1, selected, idx :: rest =>
    if selected.length < maxDetections then
      nmsLoopMain boxes iouThreshold maxDetections fuel (selected ++ [idx])
        (spliceRemove (boxes.getD idx default) boxes iouThreshold rest)
    else
      selected

/-- The while loop of the worker nonMaxSuppression; identical to the
main-thread loop except for the removal pass. -/
def nmsLoopWorker (boxes : List Box) (iouThreshold : ℚ) (maxDetections : Nat) :
    Nat → List Nat → List Nat → List Nat
  | _, selected, [] => selected
  | 0, selected, _ => selected
  | fuel + 1, selected, idx :: rest =>
    if selected.length < maxDetections then
      nmsLoopWorker boxes iouThreshold maxDetections fuel (selected ++ [idx])
        (filterRemove (boxes.getD idx default) boxes iouThreshold rest)
    else
      selected

/-- nonMaxSuppression of the main-thread script (src/unnamed/part_000). -/
def nonMaxSuppression (boxes : List Box) (scores : List ℚ)
    (iouThreshold : ℚ) (maxDetections : Nat) : List Nat :=
  let indices := sortIndices scores
  nmsLoopMain boxes iouThreshold maxDetections indices.length [] indices

/-- nonMaxSuppression of the worker script (src/static/js/yolo-worker.js). -/
def nonMaxSuppressionWorker (boxes : List Box) (scores : List ℚ)
    (iouThreshold : ℚ) (maxDetections : Nat) : List Nat :=
  let indices := sortIndices scores
  nmsLoopWorker boxes iouThreshold maxDetections indices.length [] indices

/-! ## Output decoder (processYOLOOutput, identical in both scripts)

The raw output output[0] is modelled as a list of feature rows
(row f, anchor i); numDetections and numClasses follow the source:
output[0][0].length and output[0].length - 4. -/

/-- Anchor count: output[0][0].length. -/
def numDetections (output : List (List ℚ)) : Nat := (output.getD 0 []).length

/-- Class count: output[0].length - 4. -/
def numClasses (output : List (List ℚ)) : Nat := output.length - 4

/-- output[0][f][i], the feature f of anchor i. -/
def featureAt (output : List (List ℚ)) (f i : Nat) : ℚ :=
  (output.getD f []).getD i 0

/-- The inner confidence scan of processYOLOOutput: starting from
maxScore = 0, maxClass = 0, replace the pair whenever score > maxScore
(strict, so the first maximum wins). -/
def bestClass (output : List (List ℚ)) (i : Nat) : ℚ × Nat :=
  (List.range (numClasses output)).foldl
    (fun acc c => if featureAt output (4 + c) i > acc.1 then (featureAt output (4 + c) i, c) else acc)
    (0, 0)

/-- One iteration of the anchor loop of processYOLOOutput: reads the box
features, scans the class confidences, and pushes a detection exactly when
maxScore > scoreThreshold. -/
def processAnchor (output : List (List ℚ)) (i : Nat)
    (imgWidth imgHeight scoreThreshold : ℚ) : Option Detection :=
  let x := featureAt output 0 i
  let y := featureAt output 1 i
  let w := featureAt output 2 i
  let h := featureAt output 3 i
  let m := bestClass output i
  if m.1 > scoreThreshold then
    some { x := (x - w / 2) * imgWidth
           y := (y - h / 2) * imgHeight
           width := w * imgWidth
           height := h * imgHeight
           score := m.1
           cls := m.2 }
  else
    none

/-- The full anchor loop of processYOLOOutput, before suppression. -/
def decodeDetections (output : List (List ℚ))
    (imgWidth imgHeight scoreThreshold : ℚ) : List Detection :=
  (List.range (numDetections output)).filterMap
    (fun i => processAnchor output i imgWidth imgHeight scoreThreshold)

/-- processYOLOOutput: decode every anchor, then apply the (main-thread)
non-maximum suppression and keep the selected detections. -/
def processYOLOOutput (output : List (List ℚ)) (imgWidth imgHeight : ℚ)
    (scoreThreshold iouThreshold : ℚ) (maxDetections : Nat) : List Detection :=
  let detections := decodeDetections output imgWidth imgHeight scoreThreshold
  let boxes := detections.map (fun d => Box.mk d.x d.y d.width d.height)
  let scores := detections.map Detection.score
  let selectedIndices := nonMaxSuppression boxes scores iouThreshold maxDetections
  selectedIndices.map (fun idx => detections.getD idx default)

/-! ## Result cache, telemetry and orchestrator (main-thread script)

The detection cache is a JavaScript Map, modelled as an association list in
insertion order with unique keys.  Map.get does not reorder entries,
Map.set on a fresh key appends, Map.delete removes the entry with the key. -/

/-- MAX_CACHE_SIZE from the main-thread script. -/
def MAX_CACHE_SIZE : Nat := 10

/-- Map.get: the value stored under a key, if any (no reordering). -/
def mapGet (m : List (String × List Detection)) (k : String) :
    Option (List Detection) :=
  (m.find? (fun p => p.1 == k)).map (fun p => p.2)

/-- Map.delete on a Map (which holds each key at most once): drop the entry
carrying the key. -/
def mapDelete (m : List (String × List Detection)) (k : String) :
    List (String × List Detection) :=
  m.filter (fun p => !(p.1 == k))

/-- Map.set: overwrite in place when the key is present, append otherwise. -/
def mapSet (m : List (String × List Detection)) (k : String)
    (v : List Detection) : List (String × List Detection) :=
  if (m.find? (fun p => p.1 == k)).isSome then
    m.map (fun p => if p.1 == k then (k, v) else p)
  else
    m ++ [(k, v)]

/-- The cache-store step of detectMedicine:
if (detectionCache.size >= MAX_CACHE_SIZE) delete the first key, then set. -/
def cachePut (m : List (String × List Detection)) (k : String)
    (v : List Detection) : List (String × List Detection) :=
  let m2 :=
    if MAX_CACHE_SIZE ≤ m.length then
      match m with
      | [] => m
      | e :: _ => mapDelete m e.1
    else m
  mapSet m2 k v

/-- The performanceMetrics record of the main-thread script.  Counters are
naturals (they are only ever incremented by one), times are rationals. -/
structure Metrics where
  modelLoadTime : ℚ
  inferenceCount : Nat
  totalInferenceTime : ℚ
  averageInferenceTime : ℚ
  cachedResults : Nat
  workerUsage : Nat
deriving DecidableEq, Repr

/-- The initial value of performanceMetrics (all zero). -/
def Metrics.initial : Metrics := ⟨0, 0, 0, 0, 0, 0⟩

/-- The process-wide mutable state read and written by detectMedicine:
useWebWorker, yoloWorker (modelled as a flag: handle non-null), the
detection cache and the performance metrics. -/
structure AppState where
  useWebWorker : Bool
  yoloWorker : Bool
  detectionCache : List (String × List Detection)
  metrics : Metrics
deriving Repr

/-- Result of one detectMedicine call: the state after the call, the value
the returned promise settles with, and whether the call dispatched to the
background worker. -/
structure DetectOutcome where
  state : AppState
  result : Except String (List Detection)
  usedWorker : Bool

/-- detectMedicine from the main-thread script.  The inference itself is an
external capability, so the outcome of the worker dispatch and the outcome of
the main-thread (caller-context) path are parameters, as is the measured
inference time.  The translation follows the source line by line:
cache hit short-circuits (cachedResults++); otherwise the worker path is taken
exactly when useWebWorker && yoloWorker (workerUsage++); on success the result
is stored via cachePut and inferenceCount / totalInferenceTime /
averageInferenceTime are updated; the catch block downgrades useWebWorker to
false and returns the main-thread retry outcome as-is when the worker path was
active, and rethrows otherwise.  The retry return bypasses the caching and
metric updates of the try block. -/
def detectMedicine (st : AppState) (cacheKey : String)
    (workerOutcome mainOutcome : Except String (List Detection))
    (inferenceTime : ℚ) : DetectOutcome :=
  match mapGet st.detectionCache cacheKey with
  | some cached =>
    { state := { st with metrics := { st.metrics with
        cachedResults := st.metrics.cachedResults + 1 } }
      result := .ok cached
      usedWorker := false }
  | none =>
    let useWorker := st.useWebWorker && st.yoloWorker
    let st1 :=
      if useWorker then
        { st with metrics := { st.metrics with
            workerUsage := st.metrics.workerUsage + 1 } }
      else st
    let attempt := if useWorker then workerOutcome else mainOutcome
    match attempt with
    | .ok detections =>
      let count2 := st1.metrics.inferenceCount + 1
      let total2 := st1.metrics.totalInferenceTime + inferenceTime
      { state := { st1 with
          detectionCache := cachePut st1.detectionCache cacheKey detections
          metrics := { st1.metrics with
            inferenceCount := count2
            totalInferenceTime := total2
            averageInferenceTime := total2 / (count2 : ℚ) } }
        result := .ok detections
        usedWorker := useWorker }
    | .error e =>
      if st1.useWebWorker && st1.yoloWorker then
        { state := { st1 with useWebWorker := false }
          result := mainOutcome
          usedWorker := useWorker }
      else
        { state := st1, result := .error e, usedWorker := useWorker }

/-- The cacheHitRate view of getPerformanceMetrics, as a percentage:
inferenceCount > 0 ? (cachedResults / (inferenceCount + cachedResults)) * 100
: 0.  (The source additionally formats the number with toFixed(1) and a
percent sign; that string formatting is presentation only.) -/
def cacheHitRatePct (m : Metrics) : ℚ :=
  if 0 < m.inferenceCount then
    ((m.cachedResults : ℚ) / ((m.inferenceCount : ℚ) + (m.cachedResults : ℚ))) * 100
  else 0

/-- The workerUsagePercent view of getPerformanceMetrics, same guard. -/
def workerUsagePct (m : Metrics) : ℚ :=
  if 0 < m.inferenceCount then
    ((m.workerUsage : ℚ) / (m.inferenceCount : ℚ)) * 100
  else 0

/-- Sample raw output with one anchor: center (1/2, 1/2), size (1/5, 1/5),
one class with confidence 3/10. -/
def sampleOutput : List (List ℚ) := [[1/2], [1/2], [1/5], [1/5], [3/10]]

/-- The detection decoded from sampleOutput on a 640 x 640 image. -/
def sampleDetection : Detection := ⟨256, 256, 128, 128, 3/10, 0⟩

/-- Sample raw output whose single anchor has maximum confidence exactly 1/4,
the default score threshold. -/
def sampleOutputBoundary : List (List ℚ) := [[1/2], [1/2], [1/5], [1/5], [1/4]]

/-- Eleven distinct cache keys, inserted in order. -/
def elevenKeys : List String :=
  ["k00", "k01", "k02", "k03", "k04", "k05", "k06", "k07", "k08", "k09", "k10"]

/-- The cache obtained by storing the eleven keys, in order, into an empty
cache through the store step of detectMedicine. -/
def cacheAfterEleven : List (String × List Detection) :=
  elevenKeys.foldl (fun m k => cachePut m k []) []

/-- A full cache of ten distinct keys, in insertion order. -/
def tenEntries : List (String × List Detection) :=
  [("a0", []), ("a1", []), ("a2", []), ("a3", []), ("a4", []),
   ("a5", []), ("a6", []), ("a7", []), ("a8", []), ("a9", [])]

/-!
## Helper lemmas

The confidence scan of processYOLOOutput is analysed through the generic fold
bestFold, of which bestClass is an instance. -/

/-- The confidence scan as a generic fold. -/
def bestFold (conf : Nat → ℚ) (n : Nat) : ℚ × Nat :=
  (List.range n).foldl
    (fun acc c => if conf c > acc.1 then (conf c, c) else acc) (0, 0)

theorem bestClass_eq_bestFold (output : List (List ℚ)) (i : Nat) :
    bestClass output i =
      bestFold (fun c => featureAt output (4 + c) i) (numClasses output) := rfl

theorem bestFold_zero (conf : Nat → ℚ) : bestFold conf 0 = (0, 0) := rfl

theorem bestFold_succ (conf : Nat → ℚ) (n : Nat) :
    bestFold conf (n + 1) =
      if conf n > (bestFold conf n).1 then (conf n, n) else bestFold conf n := by
  unfold bestFold
  rw [List.range_succ, List.foldl_append]
  rfl

/-- The invariant of the confidence scan: the running value dominates every
confidence seen so far, and unless the scan still sits at its start value
(0, 0), the running index is the first index attaining the running value. -/
theorem bestFold_spec (conf : Nat → ℚ) (n : Nat) :
    (∀ c, c < n → conf c ≤ (bestFold conf n).1) ∧
    (bestFold conf n = (0, 0) ∨
      ((bestFold conf n).2 < n ∧
        conf (bestFold conf n).2 = (bestFold conf n).1 ∧
        ∀ c, c < (bestFold conf n).2 → conf c < (bestFold conf n).1)) := by
  induction n with
  | zero =>
    refine ⟨fun c hc => absurd hc (Nat.not_lt_zero c), Or.inl rfl⟩
  | succ n ih =>
    obtain ⟨hle, hcase⟩ := ih
    rw [bestFold_succ]
    by_cases h : conf n > (bestFold conf n).1
    · rw [if_pos h]
      refine ⟨fun c hc => ?side1, Or.inr ⟨Nat.lt_succ_self n, rfl, ?side2⟩⟩
      · rcases Nat.lt_succ_iff_lt_or_eq.mp hc with h1 | h1
        · exact le_of_lt (lt_of_le_of_lt (hle c h1) h)
        · subst h1; exact le_refl _
      · exact fun c hc => lt_of_le_of_lt (hle c hc) h
    · rw [if_neg h]
      refine ⟨fun c hc => ?side3, ?side4⟩
      · rcases Nat.lt_succ_iff_lt_or_eq.mp hc with h1 | h1
        · exact hle c h1
        · subst h1; exact not_lt.mp h
      · rcases hcase with h0 | ⟨h1, h2, h3⟩
        · exact Or.inl h0
        · exact Or.inr ⟨Nat.lt_succ_of_lt h1, h2, h3⟩

/-- If every scanned confidence is at most 1, so is the scan result. -/
theorem bestFold_le_one (conf : Nat → ℚ) (n : Nat)
    (h : ∀ c, c < n → conf c ≤ 1) : (bestFold conf n).1 ≤ 1 := by
  rcases (bestFold_spec conf n).2 with h0 | ⟨h1, h2, h3⟩
  · rw [h0]; norm_num
  · rw [← h2]; exact h (bestFold conf n).2 h1

theorem intersectionArea_nonneg (a b : Box) : 0 ≤ intersectionArea a b := by
  unfold intersectionArea
  exact mul_nonneg (le_max_left 0 _) (le_max_left 0 _)

theorem intersectionArea_le_left (a b : Box)
    (hw : 0 ≤ a.width) (hh : 0 ≤ a.height) :
    intersectionArea a b ≤ boxArea a := by
  unfold intersectionArea boxArea
  have hx : min (a.x + a.width) (b.x + b.width) - max a.x b.x ≤ a.width := by
    have h1 := min_le_left (a.x + a.width) (b.x + b.width)
    have h2 := le_max_left a.x b.x
    linarith
  have hy : min (a.y + a.height) (b.y + b.height) - max a.y b.y ≤ a.height := by
    have h1 := min_le_left (a.y + a.height) (b.y + b.height)
    have h2 := le_max_left a.y b.y
    linarith
  exact mul_le_mul (max_le hw hx) (max_le hh hy) (le_max_left 0 _) hw

theorem intersectionArea_le_right (a b : Box)
    (hw : 0 ≤ b.width) (hh : 0 ≤ b.height) :
    intersectionArea a b ≤ boxArea b := by
  unfold intersectionArea boxArea
  have hx : min (a.x + a.width) (b.x + b.width) - max a.x b.x ≤ b.width := by
    have h1 := min_le_right (a.x + a.width) (b.x + b.width)
    have h2 := le_max_right a.x b.x
    linarith
  have hy : min (a.y + a.height) (b.y + b.height) - max a.y b.y ≤ b.height := by
    have h1 := min_le_right (a.y + a.height) (b.y + b.height)
    have h2 := le_max_right a.y b.y
    linarith
  exact mul_le_mul (max_le hw hx) (max_le hh hy) (le_max_left 0 _) hw

theorem mapSet_length_le (m : List (String × List Detection)) (k : String)
    (v : List Detection) : (mapSet m k v).length ≤ m.length + 1 := by
  unfold mapSet
  split
  · simp
  · simp

/-- Map.set leaves the key bound to the given value. -/
theorem mapGet_mapSet_self (m : List (String × List Detection)) (k : String)
    (v : List Detection) : mapGet (mapSet m k v) k = some v := by
  induction m with
  | nil =>
    simp [mapGet, mapSet, List.find?]
  | cons p rest ih =>
    by_cases hp : p.1 == k
    · simp only [mapSet, List.find?_cons, hp, cond_true, Option.isSome_some, if_true,
        List.map_cons, if_pos hp]
      simp [mapGet, List.find?]
    · by_cases h2 : (rest.find? (fun q => q.1 == k)).isSome
      · have hset : mapSet (p :: rest) k v = p :: rest.map
            (fun q => if q.1 == k then (k, v) else q) := by
          simp [mapSet, List.find?_cons, hp, h2]
          exact fun h => absurd h (by simpa using hp)
        have hrest : mapSet rest k v = rest.map
            (fun q => if q.1 == k then (k, v) else q) := by
          simp [mapSet, h2]
        rw [hset]
        simp only [mapGet, List.find?_cons, hp, cond_false]
        rw [← mapGet, ← hrest]
        exact ih
      · have hset : mapSet (p :: rest) k v = p :: (rest ++ [(k, v)]) := by
          simp [mapSet, List.find?_cons, hp, h2]
        have hrest : mapSet rest k v = rest ++ [(k, v)] := by
          simp [mapSet, h2]
        rw [hset]
        simp only [mapGet, List.find?_cons, hp, cond_false]
        rw [← mapGet, ← hrest]
        exact ih

/-- The cache-store step never grows the cache beyond its capacity. -/
theorem cachePut_length_le (m : List (String × List Detection)) (k : String)
    (v : List Detection) (h : m.length ≤ MAX_CACHE_SIZE) :
    (cachePut m k v).length ≤ MAX_CACHE_SIZE := by
  cases m with
  | nil =>
    simp [cachePut, mapSet, MAX_CACHE_SIZE, List.find?]
  | cons e rest =>
    by_cases h10 : MAX_CACHE_SIZE ≤ (e :: rest).length
    · have hput : cachePut (e :: rest) k v = mapSet (mapDelete (e :: rest) e.1) k v := by
        have h10x : MAX_CACHE_SIZE ≤ rest.length + 1 := by simpa using h10
        simp [cachePut, h10x]
      have hdel : (mapDelete (e :: rest) e.1).length ≤ rest.length := by
        have hfe : mapDelete (e :: rest) e.1 = rest.filter (fun p => !(p.1 == e.1)) := by
          simp [mapDelete]
        rw [hfe]
        exact List.length_filter_le _ rest
      have hms := mapSet_length_le (mapDelete (e :: rest) e.1) k v
      have hrl : (e :: rest).length = rest.length + 1 := by simp
      rw [hput]
      omega
    · have hput : cachePut (e :: rest) k v = mapSet (e :: rest) k v := by
        have h10x : ¬ MAX_CACHE_SIZE ≤ rest.length + 1 := by simpa using h10
        simp [cachePut, h10x]
      have hms := mapSet_length_le (e :: rest) k v
      rw [hput]
      omega

/-- Storing a fresh key into a full cache with distinct keys evicts exactly
the first-inserted entry and appends the new one. -/
theorem cachePut_full_fresh (m : List (String × List Detection)) (k : String)
    (v : List Detection) (hnd : (m.map Prod.fst).Nodup)
    (hlen : m.length = MAX_CACHE_SIZE) (hk : ∀ p ∈ m, p.1 ≠ k) :
    cachePut m k v = m.tail ++ [(k, v)] := by
  cases m with
  | nil => simp [MAX_CACHE_SIZE] at hlen
  | cons e rest =>
    have h10 : MAX_CACHE_SIZE ≤ (e :: rest).length := le_of_eq hlen.symm
    have hnd2 : e.1 ∉ rest.map Prod.fst := by
      rw [List.map_cons, List.nodup_cons] at hnd
      exact hnd.1
    have hdel : mapDelete (e :: rest) e.1 = rest := by
      have hfe : mapDelete (e :: rest) e.1 = rest.filter (fun p => !(p.1 == e.1)) := by
        simp [mapDelete]
      rw [hfe]
      apply List.filter_eq_self.mpr
      intro p hp
      have hne : p.1 ≠ e.1 := by
        intro hcontra
        exact hnd2 (hcontra ▸ List.mem_map_of_mem Prod.fst hp)
      simpa using hne
    have hfind : rest.find? (fun p => p.1 == k) = none := by
      rw [List.find?_eq_none]
      intro p hp
      simpa using hk p (List.mem_cons_of_mem e hp)
    have hset : mapSet rest k v = rest ++ [(k, v)] := by
      simp [mapSet, hfind]
    have h10x : MAX_CACHE_SIZE ≤ rest.length + 1 := by simpa using h10
    simp [cachePut, h10x, hdel, hset]

/-- Both suppression loops return the accumulator once candidates run out. -/
theorem nmsLoopMain_nil (boxes : List Box) (thr : ℚ) (maxDet fuel : Nat)
    (selected : List Nat) :
    nmsLoopMain boxes thr maxDet fuel selected [] = selected := by
  cases fuel <;> rfl

theorem nmsLoopWorker_nil (boxes : List Box) (thr : ℚ) (maxDet fuel : Nat)
    (selected : List Nat) :
    nmsLoopWorker boxes thr maxDet fuel selected [] = selected := by
  cases fuel <;> rfl

theorem nmsLoopMain_cons (boxes : List Box) (thr : ℚ) (maxDet fuel : Nat)
    (selected : List Nat) (idx : Nat) (rest : List Nat) :
    nmsLoopMain boxes thr maxDet (fuel + 1) selected (idx :: rest) =
      if selected.length < maxDet then
        nmsLoopMain boxes thr maxDet fuel (selected ++ [idx])
          (spliceRemove (boxes.getD idx default) boxes thr rest)
      else selected := rfl

theorem nmsLoopWorker_cons (boxes : List Box) (thr : ℚ) (maxDet fuel : Nat)
    (selected : List Nat) (idx : Nat) (rest : List Nat) :
    nmsLoopWorker boxes thr maxDet (fuel + 1) selected (idx :: rest) =
      if selected.length < maxDet then
        nmsLoopWorker boxes thr maxDet fuel (selected ++ [idx])
          (filterRemove (boxes.getD idx default) boxes thr rest)
      else selected := rfl

theorem sortIndices_nil : sortIndices [] = [] := rfl

theorem sortIndices_single (s : ℚ) : sortIndices [s] = [0] := rfl

theorem sortIndices_pair (s1 s2 : ℚ) :
    sortIndices [s1, s2] = if s1 ≥ s2 then [0, 1] else [1, 0] := by
  by_cases h : s1 ≥ s2
  · rw [if_pos h]
    show (insertByScore (s1, 0) [(s2, 1)]).map (fun p => p.2) = [0, 1]
    rw [insertByScore, if_pos h]
    rfl
  · rw [if_neg h]
    show (insertByScore (s1, 0) [(s2, 1)]).map (fun p => p.2) = [1, 0]
    rw [insertByScore, if_neg h]
    rfl

theorem spliceRemove_nil (current : Box) (boxes : List Box) (thr : ℚ) :
    spliceRemove current boxes thr [] = [] := rfl

theorem filterRemove_nil (current : Box) (boxes : List Box) (thr : ℚ) :
    filterRemove current boxes thr [] = [] := rfl

/-- On a singleton candidate list the two suppression loops agree. -/
theorem nmsLoops_single (boxes : List Box) (thr : ℚ) (maxDet i : Nat) :
    nmsLoopMain boxes thr maxDet 1 [] [i] =
      nmsLoopWorker boxes thr maxDet 1 [] [i] := by
  rw [show (1 : Nat) = 0 + 1 from rfl, nmsLoopMain_cons, nmsLoopWorker_cons]
  by_cases hmax : (List.length ([] : List Nat)) < maxDet
  · rw [if_pos hmax, if_pos hmax, spliceRemove_nil, filterRemove_nil,
      nmsLoopMain_nil, nmsLoopWorker_nil]
  · rw [if_neg hmax, if_neg hmax]

/-- On a two-candidate list the two suppression loops agree: the forward
splice of the main thread only misbehaves when at least two candidates remain
after an accepted box. -/
theorem nmsLoops_pair (boxes : List Box) (thr : ℚ) (maxDet i j : Nat) :
    nmsLoopMain boxes thr maxDet 2 [] [i, j] =
      nmsLoopWorker boxes thr maxDet 2 [] [i, j] := by
  rw [show (2 : Nat) = 1 + 1 from rfl, nmsLoopMain_cons, nmsLoopWorker_cons]
  by_cases hmax : (List.length ([] : List Nat)) < maxDet
  · rw [if_pos hmax, if_pos hmax]
    simp only [List.nil_append]
    cases hc : iouExceeds (calculateIoU (boxes.getD i default) (boxes.getD j default)) thr
    · have hs : spliceRemove (boxes.getD i default) boxes thr [j] = [j] := by
        simp only [spliceRemove, hc, Bool.false_eq_true, if_false]
      have hf : filterRemove (boxes.getD i default) boxes thr [j] = [j] := by
        simp only [filterRemove, List.filter_cons, hc, Bool.not_false, if_true,
          List.filter_nil]
      rw [hs, hf, show (1 : Nat) = 0 + 1 from rfl, nmsLoopMain_cons, nmsLoopWorker_cons]
      by_cases hmax2 : [i].length < maxDet
      · rw [if_pos hmax2, if_pos hmax2, spliceRemove_nil, filterRemove_nil,
          nmsLoopMain_nil, nmsLoopWorker_nil]
      · rw [if_neg hmax2, if_neg hmax2]
    · have hs : spliceRemove (boxes.getD i default) boxes thr [j] = [] := by
        simp only [spliceRemove, hc, eq_self_iff_true, if_true]
      have hf : filterRemove (boxes.getD i default) boxes thr [j] = [] := by
        simp only [filterRemove, List.filter_cons, hc, Bool.not_true, Bool.false_eq_true,
          if_false, List.filter_nil]
      rw [hs, hf, nmsLoopMain_nil, nmsLoopWorker_nil]
  · rw [if_neg hmax, if_neg hmax]

/-!
## The claims
-/

/-- Claim C10: the IoU computation is commutative: for every pair of boxes
a and b, calculateIoU a b = calculateIoU b a. -/
theorem c10_calculateIoU_comm (a b : Box) : calculateIoU a b = calculateIoU b a := by
  simp only [calculateIoU, intersectionArea, boxArea]
  rw [max_comm a.x b.x, max_comm a.y b.y,
    min_comm (a.x + a.width) (b.x + b.width),
    min_comm (a.y + a.height) (b.y + b.height),
    add_comm (a.width * a.height) (b.width * b.height)]

/-- Claim C2, counterexample: for a pair of degenerate zero-area boxes the
denominator areaA + areaB - intersectionArea is zero and the division is NOT
guarded: the source computes 0 / 0 = NaN (modelled as none), not the IoU 0
the claim states. -/
theorem c2_zero_area_counterexample :
    calculateIoU ⟨0, 0, 0, 0⟩ ⟨0, 0, 0, 0⟩ = none ∧
    calculateIoU ⟨0, 0, 0, 0⟩ ⟨0, 0, 0, 0⟩ ≠ some 0 := by
  constructor
  · rfl
  · intro h
    exact Option.noConfusion h

/-- Claim C2, amended: for boxes with non-negative width and height whose
areas are not both zero the denominator is positive, so the division is
defined and a pair with zero overlap area yields IoU 0; but for a pair of
degenerate zero-area boxes the denominator is zero and the unguarded division
yields NaN (none), not 0. -/
theorem c2_iou_division_guard (a b : Box) (haw : 0 ≤ a.width) (hah : 0 ≤ a.height)
    (hbw : 0 ≤ b.width) (hbh : 0 ≤ b.height) :
    (boxArea a + boxArea b ≠ 0 →
      ∃ v, calculateIoU a b = some v ∧ (intersectionArea a b = 0 → v = 0)) ∧
    (boxArea a = 0 → boxArea b = 0 → calculateIoU a b = none) := by
  have hI0 : 0 ≤ intersectionArea a b := intersectionArea_nonneg a b
  have hIA : intersectionArea a b ≤ boxArea a := intersectionArea_le_left a b haw hah
  have hIB : intersectionArea a b ≤ boxArea b := intersectionArea_le_right a b hbw hbh
  have hA : 0 ≤ boxArea a := mul_nonneg haw hah
  have hB : 0 ≤ boxArea b := mul_nonneg hbw hbh
  constructor
  · intro hne
    have hpos : 0 < boxArea a + boxArea b :=
      lt_of_le_of_ne (by linarith) (Ne.symm hne)
    have hu : 0 < boxArea a + boxArea b - intersectionArea a b := by linarith
    refine ⟨intersectionArea a b / (boxArea a + boxArea b - intersectionArea a b),
      ?side1, ?side2⟩
    · simp only [calculateIoU]
      rw [if_neg (ne_of_gt hu)]
    · intro hz
      rw [hz, zero_div]
  · intro ha0 hb0
    have hIz : intersectionArea a b = 0 := by
      apply le_antisymm _ hI0
      rw [← ha0]
      exact hIA
    simp only [calculateIoU]
    rw [if_pos (by rw [ha0, hb0, hIz]; ring)]

/-- Witness for C2 at concrete disjoint unit boxes. -/
theorem c2_witness :
    ∃ v, calculateIoU ⟨0, 0, 1, 1⟩ ⟨5, 5, 1, 1⟩ = some v ∧
      (intersectionArea ⟨0, 0, 1, 1⟩ ⟨5, 5, 1, 1⟩ = 0 → v = 0) :=
  (c2_iou_division_guard ⟨0, 0, 1, 1⟩ ⟨5, 5, 1, 1⟩ (by decide) (by decide)
    (by decide) (by decide)).1 (by decide)

/-- Claim C1: the claim states that after a candidate is accepted, EVERY
remaining candidate whose IoU with it exceeds the threshold is removed, in
both implementations.  The worker implementation does this; the main-thread
implementation splices inside a forward forEach, which skips the candidate
that shifts into the removed slot: with three identical boxes it accepts
indices [0, 2] instead of [0].  The two-box example of the spec (IoU 9/10 at
threshold 45/100, scores 8/10 and 6/10) does hold in both implementations. -/
theorem c1_mainthread_nms_skips_candidate :
    nonMaxSuppression [⟨0, 0, 10, 10⟩, ⟨0, 0, 10, 10⟩, ⟨0, 0, 10, 10⟩]
      [9/10, 8/10, 7/10] (45/100) 100 = [0, 2] ∧
    nonMaxSuppressionWorker [⟨0, 0, 10, 10⟩, ⟨0, 0, 10, 10⟩, ⟨0, 0, 10, 10⟩]
      [9/10, 8/10, 7/10] (45/100) 100 = [0] ∧
    calculateIoU ⟨0, 0, 10, 10⟩ ⟨0, 0, 10, 9⟩ = some (9/10) ∧
    nonMaxSuppression [⟨0, 0, 10, 10⟩, ⟨0, 0, 10, 9⟩] [8/10, 6/10] (45/100) 100 = [0] ∧
    nonMaxSuppressionWorker [⟨0, 0, 10, 10⟩, ⟨0, 0, 10, 9⟩] [8/10, 6/10] (45/100) 100 = [0] := by
  refine ⟨by decide, by decide, by decide, by decide, by decide⟩

/-- Claim C9, counterexample: the two nonMaxSuppression implementations
disagree on three coincident boxes: the main-thread splice-in-forEach skips
one overlapping candidate, the worker removes both. -/
theorem c9_nms_counterexample :
    nonMaxSuppression [⟨0, 0, 4, 4⟩, ⟨0, 0, 4, 4⟩, ⟨0, 0, 4, 4⟩]
      [3/4, 1/2, 1/4] (45/100) 100 ≠
    nonMaxSuppressionWorker [⟨0, 0, 4, 4⟩, ⟨0, 0, 4, 4⟩, ⟨0, 0, 4, 4⟩]
      [3/4, 1/2, 1/4] (45/100) 100 := by decide

/-- Claim C9, amended: the two implementations agree on every input with at
most two detections (with three or more, the main-thread forward splice can
skip a candidate and the results can differ). -/
theorem c9_nms_agree_of_le_two (boxes : List Box) (scores : List ℚ)
    (thr : ℚ) (maxDet : Nat) (h : scores.length ≤ 2) :
    nonMaxSuppression boxes scores thr maxDet =
      nonMaxSuppressionWorker boxes scores thr maxDet := by
  rcases scores with _ | ⟨s1, _ | ⟨s2, _ | ⟨s3, rest⟩⟩⟩
  · rfl
  · show nmsLoopMain boxes thr maxDet (sortIndices [s1]).length [] (sortIndices [s1]) =
      nmsLoopWorker boxes thr maxDet (sortIndices [s1]).length [] (sortIndices [s1])
    rw [sortIndices_single]
    exact nmsLoops_single boxes thr maxDet 0
  · show nmsLoopMain boxes thr maxDet (sortIndices [s1, s2]).length []
        (sortIndices [s1, s2]) =
      nmsLoopWorker boxes thr maxDet (sortIndices [s1, s2]).length []
        (sortIndices [s1, s2])
    rw [sortIndices_pair]
    by_cases hge : s1 ≥ s2
    · rw [if_pos hge]
      exact nmsLoops_pair boxes thr maxDet 0 1
    · rw [if_neg hge]
      exact nmsLoops_pair boxes thr maxDet 1 0
  · simp only [List.length_cons] at h
    omega

/-- Witness for C9 at a concrete two-box input. -/
theorem c9_witness :
    (List.length [(1 : ℚ)/2, 1/4] ≤ 2) ∧
    nonMaxSuppression [⟨0, 0, 1, 1⟩, ⟨0, 0, 1, 1⟩] [1/2, 1/4] (45/100) 100 =
      nonMaxSuppressionWorker [⟨0, 0, 1, 1⟩, ⟨0, 0, 1, 1⟩] [1/2, 1/4] (45/100) 100 :=
  ⟨by decide,
   c9_nms_agree_of_le_two [⟨0, 0, 1, 1⟩, ⟨0, 0, 1, 1⟩] [1/2, 1/4] (45/100) 100 (by decide)⟩

/-- Claim C5, counterexample: an anchor whose maximum class confidence equals
the score threshold exactly IS discarded (the source keeps an anchor only when
maxScore > scoreThreshold, so equality fails the test), contradicting the
claim that such an anchor is not discarded. -/
theorem c5_threshold_boundary_counterexample :
    bestClass sampleOutputBoundary 0 = (1/4, 0) ∧
    decodeDetections sampleOutputBoundary 640 640 (1/4) = [] := by
  refine ⟨by decide, by decide⟩

/-- Claim C5, amended: the decoder discards an anchor exactly when its scanned
maximum class confidence is LESS THAN OR EQUAL TO the score threshold
(equivalently, it emits a Detection exactly when the maximum is strictly
above); every emitted Detection has score in (scoreThreshold, 1] provided the
class confidences lie in [0, 1]. -/
theorem c5_discard_iff_le (output : List (List ℚ)) (i : Nat)
    (imgWidth imgHeight thr : ℚ) :
    (processAnchor output i imgWidth imgHeight thr = none ↔
      (bestClass output i).1 ≤ thr) ∧
    (∀ d, processAnchor output i imgWidth imgHeight thr = some d →
      thr < d.score ∧
      ((∀ c, c < numClasses output → featureAt output (4 + c) i ≤ 1) →
        d.score ≤ 1)) := by
  constructor
  · simp only [processAnchor]
    by_cases h : (bestClass output i).1 > thr
    · rw [if_pos h]
      simp [not_le.mpr h]
    · rw [if_neg h]
      simp [not_lt.mp h]
  · intro d hd
    simp only [processAnchor] at hd
    by_cases h : (bestClass output i).1 > thr
    · rw [if_pos h] at hd
      have hdd := Option.some.inj hd
      subst hdd
      refine ⟨h, fun hb => ?bound⟩
      exact bestFold_le_one (fun c => featureAt output (4 + c) i)
        (numClasses output) hb
    · rw [if_neg h] at hd
      exact absurd hd (by simp)

/-- Witness for C5 at the sample output (single anchor, confidence 3/10,
threshold 1/4). -/
theorem c5_witness :
    (1 : ℚ)/4 < sampleDetection.score ∧ sampleDetection.score ≤ 1 := by
  have h := (c5_discard_iff_le sampleOutput 0 640 640 (1/4)).2 sampleDetection (by decide)
  refine ⟨h.1, h.2 ?conf⟩
  intro c hc
  have hc1 : c = 0 := by
    have : numClasses sampleOutput = 1 := by decide
    omega
  subst hc1
  decide

/-- Claim C6: for every retained anchor (at a non-negative threshold) the
emitted Detection carries exactly the documented pixel-space transform of the
anchor features, its score is the maximum of the class confidences (attained
at its class index and dominating every class), and its class index is the
first index attaining that maximum. -/
theorem c6_retained_anchor_fields (output : List (List ℚ)) (i : Nat)
    (imgWidth imgHeight thr : ℚ) (d : Detection) (hthr : 0 ≤ thr)
    (hd : processAnchor output i imgWidth imgHeight thr = some d) :
    d.x = (featureAt output 0 i - featureAt output 2 i / 2) * imgWidth ∧
    d.y = (featureAt output 1 i - featureAt output 3 i / 2) * imgHeight ∧
    d.width = featureAt output 2 i * imgWidth ∧
    d.height = featureAt output 3 i * imgHeight ∧
    d.cls < numClasses output ∧
    featureAt output (4 + d.cls) i = d.score ∧
    (∀ c, c < numClasses output → featureAt output (4 + c) i ≤ d.score) ∧
    (∀ c, c < d.cls → featureAt output (4 + c) i < d.score) := by
  simp only [processAnchor] at hd
  by_cases h : (bestClass output i).1 > thr
  · rw [if_pos h] at hd
    have hdd := Option.some.inj hd
    subst hdd
    obtain ⟨hle, hcase⟩ :=
      bestFold_spec (fun c => featureAt output (4 + c) i) (numClasses output)
    have hpos : 0 < (bestClass output i).1 := lt_of_le_of_lt hthr h
    rcases hcase with h0 | ⟨h1, h2, h3⟩
    · have : (bestClass output i).1 = 0 := by
        rw [bestClass_eq_bestFold, h0]
      rw [this] at hpos
      exact absurd hpos (lt_irrefl 0)
    · exact ⟨rfl, rfl, rfl, rfl, h1, h2, hle, h3⟩
  · rw [if_neg h] at hd
    exact absurd hd (by simp)

/-- Witness for C6 at the sample output. -/
theorem c6_witness :
    sampleDetection.width = (1/5 : ℚ) * 640 ∧
    featureAt sampleOutput (4 + sampleDetection.cls) 0 = sampleDetection.score := by
  have h := c6_retained_anchor_fields sampleOutput 0 640 640 (1/4) sampleDetection
    (by decide) (by decide)
  exact ⟨h.2.2.1, h.2.2.2.2.2.1⟩

/-- Claim C3: if the worker path of a cache-missing detect() call fails, the
same call is retried in the caller context and resolves with the retry's
result, the state permanently downgrades (useWebWorker becomes false), and
from any downgraded state every later call never uses the worker (its outcome
is independent of the worker result, its usedWorker flag is false, and the
state stays downgraded). -/
theorem c3_worker_failure_fallback (st : AppState) (key e : String)
    (d : List Detection) (t : ℚ)
    (hw : st.useWebWorker = true) (hy : st.yoloWorker = true)
    (hmiss : mapGet st.detectionCache key = none) :
    ((detectMedicine st key (.error e) (.ok d) t).result = .ok d ∧
     (detectMedicine st key (.error e) (.ok d) t).usedWorker = true ∧
     (detectMedicine st key (.error e) (.ok d) t).state.useWebWorker = false) ∧
    (∀ (st2 : AppState) (key2 : String)
       (w1 w2 m2 : Except String (List Detection)) (t2 : ℚ),
       st2.useWebWorker = false →
       (detectMedicine st2 key2 w1 m2 t2).usedWorker = false ∧
       detectMedicine st2 key2 w1 m2 t2 = detectMedicine st2 key2 w2 m2 t2 ∧
       (detectMedicine st2 key2 w1 m2 t2).state.useWebWorker = false) := by
  constructor
  · refine ⟨?retres, ?retused, ?retdown⟩ <;>
      simp [detectMedicine, hmiss, hw, hy]
  · intro st2 key2 w1 w2 m2 t2 hw2
    refine ⟨?lateruse, ?laterind, ?laterdown⟩ <;>
      cases hcache : mapGet st2.detectionCache key2 <;>
        cases m2 <;> simp [detectMedicine, hcache, hw2]

/-- Witness for C3 at a concrete initial state with an active worker. -/
theorem c3_witness :
    (detectMedicine ⟨true, true, [], Metrics.initial⟩ "img" (.error "boom")
      (.ok [sampleDetection]) 5).result = .ok [sampleDetection] ∧
    (detectMedicine ⟨true, true, [], Metrics.initial⟩ "img" (.error "boom")
      (.ok [sampleDetection]) 5).state.useWebWorker = false := by
  have h := c3_worker_failure_fallback ⟨true, true, [], Metrics.initial⟩ "img" "boom"
    [sampleDetection] 5 rfl rfl rfl
  exact ⟨h.1.1, h.1.2.2⟩

/-- Claim C4: the cache never exceeds its capacity of 10; storing a fresh key
into a full cache with distinct keys evicts exactly the first-inserted entry
(strict FIFO by insertion order: the surviving entries keep their order and
the new entry is appended); after inserting eleven distinct keys into an
empty cache the first key is absent and the other ten are present, in
insertion order. -/
theorem c4_cache_capacity_fifo :
    (∀ (m : List (String × List Detection)) (k : String) (v : List Detection),
      m.length ≤ MAX_CACHE_SIZE → (cachePut m k v).length ≤ MAX_CACHE_SIZE) ∧
    (∀ (m : List (String × List Detection)) (k : String) (v : List Detection),
      (m.map Prod.fst).Nodup → m.length = MAX_CACHE_SIZE →
      (∀ p ∈ m, p.1 ≠ k) → cachePut m k v = m.tail ++ [(k, v)]) ∧
    mapGet cacheAfterEleven "k00" = none ∧
    (∀ k ∈ elevenKeys.tail, (mapGet cacheAfterEleven k).isSome = true) ∧
    cacheAfterEleven.map Prod.fst = elevenKeys.tail :=
  ⟨cachePut_length_le, cachePut_full_fresh, by decide, by decide, by decide⟩

/-- Witness for C4 at a concrete full cache and fresh key. -/
theorem c4_witness :
    (cachePut tenEntries "fresh" []).length ≤ MAX_CACHE_SIZE ∧
    cachePut tenEntries "fresh" [] = tenEntries.tail ++ [("fresh", [])] :=
  ⟨c4_cache_capacity_fifo.1 tenEntries "fresh" [] (by decide),
   c4_cache_capacity_fifo.2.1 tenEntries "fresh" [] (by decide) (by decide)
     (by decide)⟩

/-- Claim C7, counterexample: a call that succeeds via the in-context retry
after a worker failure resolves successfully but does NOT store its result in
the cache and does NOT update inferenceCount: the retry returns directly from
the catch block, bypassing the caching and metric updates. -/
theorem c7_retry_skips_cache_counterexample :
    (detectMedicine ⟨true, true, [], Metrics.initial⟩ "img" (.error "boom")
      (.ok [sampleDetection]) 5).result = .ok [sampleDetection] ∧
    mapGet (detectMedicine ⟨true, true, [], Metrics.initial⟩ "img" (.error "boom")
      (.ok [sampleDetection]) 5).state.detectionCache "img" = none ∧
    (detectMedicine ⟨true, true, [], Metrics.initial⟩ "img" (.error "boom")
      (.ok [sampleDetection]) 5).state.metrics.inferenceCount = 0 :=
  ⟨rfl, rfl, rfl⟩

/-- Claim C7, amended: every cache-missing call that succeeds on its PRIMARY
path (the worker when active, the caller context otherwise) stores the
returned list under the key and updates inferenceCount and
totalInferenceTime; a call succeeding only via the post-failure retry does
neither (see the counterexample). -/
theorem c7_primary_success_caches (st : AppState) (key : String)
    (wOut mOut : Except String (List Detection)) (d : List Detection) (t : ℚ)
    (hmiss : mapGet st.detectionCache key = none)
    (hprimary : (if st.useWebWorker && st.yoloWorker then wOut else mOut) = .ok d) :
    (detectMedicine st key wOut mOut t).result = .ok d ∧
    mapGet (detectMedicine st key wOut mOut t).state.detectionCache key = some d ∧
    (detectMedicine st key wOut mOut t).state.metrics.inferenceCount =
      st.metrics.inferenceCount + 1 ∧
    (detectMedicine st key wOut mOut t).state.metrics.totalInferenceTime =
      st.metrics.totalInferenceTime + t := by
  by_cases huw : st.useWebWorker && st.yoloWorker
  · rw [if_pos huw] at hprimary
    subst hprimary
    refine ⟨?res1, ?cache1, ?count1, ?time1⟩ <;>
      simp [detectMedicine, hmiss, huw, mapGet_mapSet_self, cachePut]
  · rw [if_neg huw] at hprimary
    subst hprimary
    refine ⟨?res2, ?cache2, ?count2, ?time2⟩ <;>
      simp [detectMedicine, hmiss, huw, mapGet_mapSet_self, cachePut]

/-- Witness for C7 at a concrete caller-context state. -/
theorem c7_witness :
    (detectMedicine ⟨false, false, [], Metrics.initial⟩ "img" (.error "ignored")
      (.ok [sampleDetection]) 7).result = .ok [sampleDetection] ∧
    mapGet (detectMedicine ⟨false, false, [], Metrics.initial⟩ "img"
      (.error "ignored") (.ok [sampleDetection]) 7).state.detectionCache "img" =
      some [sampleDetection] := by
  have h := c7_primary_success_caches ⟨false, false, [], Metrics.initial⟩ "img"
    (.error "ignored") (.ok [sampleDetection]) [sampleDetection] 7 rfl rfl
  exact ⟨h.1, h.2.1⟩

/-- Claim C8, counterexample: with inferenceCount = 0 and cachedResults = 1
the claimed denominator inferenceCount + cacheHits = 1 is nonzero and the
claimed value is 1 (that is, 100 percent), but the source guards on
inferenceCount > 0 and reports 0. -/
theorem c8_hitrate_guard_counterexample :
    cacheHitRatePct ⟨0, 0, 0, 0, 1, 0⟩ = 0 ∧
    ((1 : ℚ) / ((0 : ℚ) + 1)) * 100 = 100 ∧ (0 : ℚ) ≠ 100 := by
  refine ⟨rfl, by norm_num, by norm_num⟩

/-- Claim C8, amended: cacheHitRate (reported as a percentage) equals
cacheHits / (inferenceCount + cacheHits) scaled by 100 whenever
inferenceCount > 0, and 0 whenever inferenceCount = 0 — the guard tests
inferenceCount, not the denominator, so a state with inferenceCount = 0 and
cacheHits > 0 reports 0 rather than 1; after 3 non-cached inferences and 1
cache hit the value is 25 percent, that is 1/4. -/
theorem c8_hitrate_guarded_on_count (m : Metrics) :
    (0 < m.inferenceCount →
      cacheHitRatePct m =
        ((m.cachedResults : ℚ) /
          ((m.inferenceCount : ℚ) + (m.cachedResults : ℚ))) * 100) ∧
    (m.inferenceCount = 0 → cacheHitRatePct m = 0) ∧
    cacheHitRatePct ⟨0, 3, 0, 0, 1, 0⟩ = 25 := by
  refine ⟨fun h => ?pos, fun h => ?zero, by decide⟩
  · rw [cacheHitRatePct, if_pos h]
  · rw [cacheHitRatePct, if_neg (by omega)]

/-- Witness for C8 at the three-inferences-one-hit state. -/
theorem c8_witness :
    cacheHitRatePct ⟨0, 3, 0, 0, 1, 0⟩ =
      (((⟨0, 3, 0, 0, 1, 0⟩ : Metrics).cachedResults : ℚ) /
        (((⟨0, 3, 0, 0, 1, 0⟩ : Metrics).inferenceCount : ℚ) +
          ((⟨0, 3, 0, 0, 1, 0⟩ : Metrics).cachedResults : ℚ))) * 100 :=
  (c8_hitrate_guarded_on_count ⟨0, 3, 0, 0, 1, 0⟩).1 (by decide)

